import Mathlib

/-!
Shallow embedding of the disposition-routing engine
(`src/app/services/routing.server.ts`) of the returns-hub application.

JavaScript strings are modelled as lists of characters (`Str`), JS numbers
as rationals (`ℚ`), and `undefined`/nullable values as `Option`.  The pure
bodies of the routing functions are translated directly; the database
fetches that surround `validateRoutingRules` are replaced by explicit
`rules`/`destinations` parameters, as the spec's §4.4 contract describes.
-/

set_option linter.unusedVariables false

/-- A JavaScript string, modelled as its sequence of characters. -/
abbrev Str := List Char

/-- Shorthand for turning a Lean string literal into a `Str`. -/
def str (s : String) : Str := s.data

/-- JS `s.toLowerCase()`. -/
def strToLower (s : Str) : Str := s.map Char.toLower

/-- JS `s.trim()`: drop leading and trailing whitespace. -/
def strTrim (s : Str) : Str :=
  ((s.dropWhile Char.isWhitespace).reverse.dropWhile Char.isWhitespace).reverse

/-- Does `hay` start with `pat`? -/
def strLeads : Str → Str → Bool
  | _, [] => true
  | [], _ :: _ => false
  | a :: hay, b :: pat => a == b && strLeads hay pat

/-- JS `hay.includes(pat)`: substring containment test. -/
def strHas : Str → Str → Bool
  | [], pat => pat.isEmpty
  | a :: hay, pat => strLeads (a :: hay) pat || strHas hay pat

/-- Numeric value of a list of decimal digit characters. -/
def digitsVal (ds : Str) : Nat :=
  ds.foldl (fun a c => a * 10 + (c.toNat - 48)) 0

/-- JS `parseFloat(s)`: a JS-style prefix parse of a decimal literal, `none`
standing for `NaN`.  Leading whitespace is skipped, an optional sign is
read, then integer digits, an optional fractional part, and an optional
decimal exponent; trailing garbage is ignored. -/
def parseFloat (s : Str) : Option ℚ :=
  let s₀ := s.dropWhile Char.isWhitespace
  let sign : ℚ := if s₀.head? = some '-' then -1 else 1
  let s₁ := if s₀.head? = some '-' || s₀.head? = some '+' then s₀.tail else s₀
  let intDigits := s₁.takeWhile Char.isDigit
  let s₂ := s₁.dropWhile Char.isDigit
  let fracDigits := if s₂.head? = some '.' then s₂.tail.takeWhile Char.isDigit else []
  let s₃ := if s₂.head? = some '.' then s₂.tail.dropWhile Char.isDigit else s₂
  if intDigits.isEmpty && fracDigits.isEmpty then none
  else
    let mant : ℚ := (digitsVal intDigits : ℚ) + (digitsVal fracDigits : ℚ) / 10 ^ fracDigits.length
    let expVal : Option Int :=
      if s₃.head? = some 'e' || s₃.head? = some 'E' then
        let t := s₃.tail
        let esign : Int := if t.head? = some '-' then -1 else 1
        let t₁ := if t.head? = some '-' || t.head? = some '+' then t.tail else t
        let eds := t₁.takeWhile Char.isDigit
        if eds.isEmpty then none else some (esign * digitsVal eds)
      else none
    some (sign * match expVal with
      | some e => mant * (10 : ℚ) ^ e
      | none => mant)

/-- Prisma model `RoutingRule` (timestamps omitted). -/
structure RoutingRule where
  id : Str
  shop : Str
  name : Str
  priority : Int
  isActive : Bool
  conditionType : Str
  conditionValue : Str
  destinationId : Str
deriving Repr, DecidableEq

/-- Prisma model `ReturnDestination` (timestamps omitted). -/
structure ReturnDestination where
  id : Str
  shop : Str
  name : Str
  addressLine1 : Str
  addressLine2 : Option Str
  city : Str
  state : Str
  postalCode : Str
  country : Str
  phone : Option Str
  isDefault : Bool
deriving Repr, DecidableEq

/-- One line item's facets inside a `RoutingContext`. -/
structure ItemFacet where
  productType : Option Str
  productTags : Option (List Str)
  productVendor : Option Str
  sku : Option Str
deriving Repr, DecidableEq

/-- The `RoutingContext` interface. -/
structure RoutingContext where
  orderValue : ℚ
  returnReason : Option Str
  customerTags : Option (List Str)
  items : List ItemFacet
deriving Repr, DecidableEq

/-- The `RuleWithDestination` interface: a rule joined with its destination record.  The
destination is `Option`-valued because the join may dangle at runtime
(the validator checks `!rule.destination`). -/
structure RuleWithDestination extends RoutingRule where
  destination : Option ReturnDestination
deriving Repr, DecidableEq

/-- JS `x?.toLowerCase() === nv` — `false` when `x` is undefined. -/
def lowerEqOpt (o : Option Str) (nv : Str) : Bool :=
  match o with
  | some s => strToLower s == nv
  | none => false

/-- JS `x?.toLowerCase().includes(nv)` — `false` when `x` is undefined. -/
def lowerHasOpt (o : Option Str) (nv : Str) : Bool :=
  match o with
  | some s => strHas (strToLower s) nv
  | none => false

/-- JS `xs?.some(tag => tag.toLowerCase() === nv)` — `false` when undefined. -/
def someTagEqOpt (o : Option (List Str)) (nv : Str) : Bool :=
  match o with
  | some tags => tags.any (fun tag => strToLower tag == nv)
  | none => false

/-- The function `evaluateCondition(rule, context)`, translated branch for branch from
`routing.server.ts`. -/
def evaluateCondition (rule : RoutingRule) (context : RoutingContext) : Bool :=
  let normalizedValue := strTrim (strToLower rule.conditionValue)
  if rule.conditionType == str "product_type" then
    context.items.any (fun item => lowerEqOpt item.productType normalizedValue)
  else if rule.conditionType == str "product_tag" then
    context.items.any (fun item => someTagEqOpt item.productTags normalizedValue)
  else if rule.conditionType == str "product_vendor" then
    context.items.any (fun item => lowerEqOpt item.productVendor normalizedValue)
  else if rule.conditionType == str "sku_contains" then
    context.items.any (fun item => lowerHasOpt item.sku normalizedValue)
  else if rule.conditionType == str "order_value_above" then
    match parseFloat rule.conditionValue with
    | some minValue => decide (minValue < context.orderValue)
    | none => false
  else if rule.conditionType == str "order_value_below" then
    match parseFloat rule.conditionValue with
    | some maxValue => decide (context.orderValue < maxValue)
    | none => false
  else if rule.conditionType == str "return_reason" then
    lowerEqOpt context.returnReason normalizedValue
  else if rule.conditionType == str "customer_tag" then
    someTagEqOpt context.customerTags normalizedValue
  else
    false

/-- The comparator of `findMatchingDestination`'s sort:
`(a, b) => a.priority - b.priority`, ascending by priority. -/
def ruleLE (a b : RuleWithDestination) : Bool :=
  decide (a.priority ≤ b.priority)

/-- The `for … return` loop of `findMatchingDestination`: the destination of
the first rule (in list order) whose condition evaluates true. -/
def firstMatch (context : RoutingContext) : List RuleWithDestination → Option ReturnDestination
  | [] => none
  | rule :: rest =>
    if evaluateCondition rule.toRoutingRule context then rule.destination
    else firstMatch context rest

/-- The function `findMatchingDestination(rules, context)`: filter to active rules, sort
ascending by priority (JS `Array.prototype.sort` is stable), return the first
matching rule's destination, else `null`. -/
def findMatchingDestination (rules : List RuleWithDestination)
    (context : RoutingContext) : Option ReturnDestination :=
  let sortedRules := (rules.filter (fun rule => rule.isActive)).mergeSort ruleLE
  firstMatch context sortedRules

/-- Argument record of `buildRoutingContext`: order data. -/
structure OrderData where
  totalValue : ℚ
  lineItems : List ItemFacet

/-- Argument record of `buildRoutingContext`: return data. -/
structure ReturnData where
  reason : Option Str

/-- Argument record of `buildRoutingContext`: optional customer data. -/
structure CustomerData where
  tags : Option (List Str)

/-- The function `buildRoutingContext(orderData, returnData, customerData?)`. -/
def buildRoutingContext (orderData : OrderData) (returnData : ReturnData)
    (customerData : Option CustomerData) : RoutingContext :=
  { orderValue := orderData.totalValue
    returnReason := returnData.reason
    customerTags := customerData.bind (fun c => c.tags)
    items := orderData.lineItems }

/-- Decimal rendering of a natural number, as JS `${n}` renders it. -/
def natToStr (n : Nat) : Str :=
  if n = 0 then ['0']
  else ((Nat.digits 10 n).map (fun d => Char.ofNat (48 + d))).reverse

/-- Decimal rendering of an integer, as JS `${p}` renders a number with an
integral value. -/
def intToStr (p : Int) : Str :=
  if p < 0 then '-' :: natToStr p.natAbs else natToStr p.toNat

/-- Issue text `No return destinations configured`. -/
def noDestinationsMsg : Str := str "No return destinations configured"

/-- Issue text `No default destination set - …`. -/
def noDefaultMsg : Str :=
  str "No default destination set - returns without matching rules will have no destination"

/-- Issue text `Rule "<name>" references a deleted destination`. -/
def danglingMsg (name : Str) : Str :=
  str "Rule \"" ++ name ++ str "\" references a deleted destination"

/-- Issue text `Rule "<name>" has invalid numeric value: <value>`. -/
def invalidNumericMsg (name value : Str) : Str :=
  str "Rule \"" ++ name ++ str "\" has invalid numeric value: " ++ value

/-- Issue text `Multiple active rules have the same priority (<p>) - …`. -/
def duplicatePriorityMsg (priority : Int) : Str :=
  str "Multiple active rules have the same priority (" ++ intToStr priority
    ++ str ") - order may be unpredictable"

/-- One step of the `priorityCounts` loop: `Map.get || 0` then `Map.set`.
A JS `Map` keeps keys in insertion order; it is modelled as an association
list, updated in place when the key exists, extended at the end otherwise. -/
def bumpPriority (m : List (Int × Nat)) (p : Int) : List (Int × Nat) :=
  if m.any (fun e => e.1 == p) then
    m.map (fun e => if e.1 == p then (e.1, e.2 + 1) else e)
  else m ++ [(p, 1)]

/-- The `priorityCounts` map of `validateRoutingRules`, built over the active
rules in list order. -/
def priorityCounts (rules : List RuleWithDestination) : List (Int × Nat) :=
  (rules.filter (fun r => r.isActive)).foldl (fun m r => bumpPriority m r.priority) []

/-- The issues contributed by one rule in the per-rule loop of
`validateRoutingRules`: a dangling-destination issue, then an
invalid-numeric-value issue for the two `order_value_*` types. -/
def ruleIssues (rule : RuleWithDestination) : List Str :=
  (match rule.destination with
    | none => [danglingMsg rule.name]
    | some _ => []) ++
  (if rule.conditionType == str "order_value_above"
      || rule.conditionType == str "order_value_below" then
    match parseFloat rule.conditionValue with
    | none => [invalidNumericMsg rule.name rule.conditionValue]
    | some _ => []
  else [])

/-- The duplicate-priority issues of `validateRoutingRules`, one per map
entry whose count exceeds 1, in map (insertion) order. -/
def duplicatePriorityIssues (rules : List RuleWithDestination) : List Str :=
  (priorityCounts rules).filterMap
    (fun e => if e.2 > 1 then some (duplicatePriorityMsg e.1) else none)

/-- Stable insertion of a rule in front of the first element it compares
`≤` to — the classic stable insertion-sort step, used only by the
spec-side reference algorithm. -/
def orderedInsertRule (a : RuleWithDestination) :
    List RuleWithDestination → List RuleWithDestination
  | [] => [a]
  | b :: l => if ruleLE a b then a :: b :: l else b :: orderedInsertRule a l

/-- Stable insertion sort by ascending priority, the reference order of the
spec: rules of equal priority keep their relative input order. -/
def insertionSortRules : List RuleWithDestination → List RuleWithDestination
  | [] => []
  | a :: l => orderedInsertRule a (insertionSortRules l)

/-- The spec's reference algorithm for the Rule Selector, written from its
words: restrict to active rules, stable-sort ascending by priority, return
the destination of the first rule whose condition evaluates true, else
`null`. -/
def findMatchingDestinationSpec (rules : List RuleWithDestination)
    (context : RoutingContext) : Option ReturnDestination :=
  match (insertionSortRules (rules.filter (fun rule => rule.isActive))).find?
      (fun rule => evaluateCondition rule.toRoutingRule context) with
  | some rule => rule.destination
  | none => none

/-- Result record of `validateRoutingRules`. -/
structure ValidationResult where
  valid : Bool
  issues : List Str
deriving Repr, DecidableEq

/-- The function `validateRoutingRules`, its two database fetches replaced by the
`rules` and `destinations` arguments (the spec's §4.4 contract): the issue
list is the destination checks, then the per-rule loop, then the
duplicate-priority loop, and `valid` is `issues.length === 0`. -/
def validateRoutingRules (rules : List RuleWithDestination)
    (destinations : List ReturnDestination) : ValidationResult :=
  let issues : List Str :=
    (if destinations.length == 0 then [noDestinationsMsg] else []) ++
    (if !(destinations.any (fun d => d.isDefault)) && destinations.length > 0 then
      [noDefaultMsg] else []) ++
    rules.flatMap ruleIssues ++
    duplicatePriorityIssues rules
  { valid := issues.length == 0, issues := issues }

/-- The eight recognized condition types, in the order of the
`ConditionType` union. -/
def knownConditionTypes : List Str :=
  [str "product_type", str "product_tag", str "sku_contains",
   str "order_value_above", str "order_value_below", str "return_reason",
   str "customer_tag", str "product_vendor"]

/-- Two characters differ at most in letter case. -/
def charCaseEq (c d : Char) : Bool := c.toLower == d.toLower

/-- Two strings differ at most in letter case: same length, characters
pairwise case-equivalent. -/
def strCaseEq : Str → Str → Bool
  | [], [] => true
  | a :: s, b :: t => charCaseEq a b && strCaseEq s t
  | _, _ => false

/-- Optional strings differ at most in letter case (both absent, or both
present and case-equivalent). -/
def optCaseEq : Option Str → Option Str → Bool
  | none, none => true
  | some s, some t => strCaseEq s t
  | _, _ => false

/-- String lists differ at most in letter case, elementwise. -/
def listCaseEq : List Str → List Str → Bool
  | [], [] => true
  | s :: ss, t :: ts => strCaseEq s t && listCaseEq ss ts
  | _, _ => false

/-- Optional string lists differ at most in letter case. -/
def optListCaseEq : Option (List Str) → Option (List Str) → Bool
  | none, none => true
  | some ss, some ts => listCaseEq ss ts
  | _, _ => false

/-- Two item facets differ at most in the letter case of their string
fields. -/
def itemCaseEq (i j : ItemFacet) : Bool :=
  optCaseEq i.productType j.productType &&
  optListCaseEq i.productTags j.productTags &&
  optCaseEq i.productVendor j.productVendor &&
  optCaseEq i.sku j.sku

/-- Item lists differ at most in letter case, elementwise. -/
def itemsCaseEq : List ItemFacet → List ItemFacet → Bool
  | [], [] => true
  | i :: is, j :: js => itemCaseEq i j && itemsCaseEq is js
  | _, _ => false

/-- Two contexts differ at most in the letter case of their string fields. -/
def ctxCaseEq (c d : RoutingContext) : Bool :=
  decide (c.orderValue = d.orderValue) &&
  optCaseEq c.returnReason d.returnReason &&
  optListCaseEq c.customerTags d.customerTags &&
  itemsCaseEq c.items d.items

/-- The six string-valued condition types of the case-insensitivity
guarantee. -/
def stringConditionTypes : List Str :=
  [str "product_type", str "product_tag", str "product_vendor",
   str "sku_contains", str "return_reason", str "customer_tag"]

/-- JS `Map.get(p) || 0` on the modelled priority map. -/
def lookupCount (m : List (Int × Nat)) (p : Int) : Nat :=
  match m.find? (fun e => e.1 == p) with
  | some e => e.2
  | none => 0

/-- The number of active rules of `rules` with priority `p`. -/
def activePriorityCount (rules : List RuleWithDestination) (p : Int) : Nat :=
  (rules.filter (fun r => r.isActive)).countP (fun r => r.priority == p)

example : evaluateCondition
    ⟨str "1", str "s", str "r", 5, true, str "product_type", str "ELECTRONICS", str "d"⟩
    ⟨100, some (str "defective"), some [str "vip"],
      [⟨some (str "Electronics"), some [str "featured"], some (str "Acme Corp"),
        some (str "ELEC-001-BLK")⟩]⟩ = true := by decide

example : evaluateCondition
    ⟨str "1", str "s", str "r", 5, true, str "order_value_above", str "50", str "d"⟩
    ⟨100, none, none, []⟩ = true := by
  have h : parseFloat (str "50") = some 50 := by simp +decide [parseFloat, str, digitsVal]
  simp +decide [evaluateCondition, h]

example : evaluateCondition
    ⟨str "1", str "s", str "r", 5, true, str "order_value_above", str "not-a-number", str "d"⟩
    ⟨100, none, none, []⟩ = false := by
  have h : parseFloat (str "not-a-number") = none := by simp +decide [parseFloat, str]
  simp +decide [evaluateCondition, h]

example : parseFloat (str "100.25") = some (401/4) := by
  simp +decide [parseFloat, str, digitsVal]; norm_num

example : parseFloat (str "  -1.5e2") = some (-150) := by
  simp +decide [parseFloat, str, digitsVal]; norm_num

theorem ruleLE_trans (a b c : RuleWithDestination) :
    ruleLE a b → ruleLE b c → ruleLE a c := by
  simp only [ruleLE, decide_eq_true_eq]
  omega

theorem ruleLE_total (a b : RuleWithDestination) :
    ruleLE a b || ruleLE b a := by
  simp only [ruleLE, Bool.or_eq_true, decide_eq_true_eq]
  omega

theorem orderedInsertRule_append (a : RuleWithDestination)
    (l₁ l₂ : List RuleWithDestination)
    (h₁ : ∀ b ∈ l₁, ruleLE a b = false)
    (h₂ : ∀ c ∈ l₂, ruleLE a c = true) :
    orderedInsertRule a (l₁ ++ l₂) = l₁ ++ a :: l₂ := by
  induction l₁ with
  | nil =>
    cases l₂ with
    | nil => rfl
    | cons c t => simp [orderedInsertRule, h₂ c (by simp)]
  | cons b l₁ ih =>
    simp only [List.cons_append, orderedInsertRule, h₁ b (by simp),
      Bool.false_eq_true, if_false, List.append_eq]
    rw [ih (fun x hx => h₁ x (by simp [hx]))]

theorem mergeSort_eq_insertionSortRules (l : List RuleWithDestination) :
    l.mergeSort ruleLE = insertionSortRules l := by
  induction l with
  | nil => simp [List.mergeSort_nil, insertionSortRules]
  | cons a l ih =>
    obtain ⟨l₁, l₂, h₁, h₂, h₃⟩ := List.mergeSort_cons ruleLE_trans ruleLE_total a l
    have hsorted := @List.sorted_mergeSort _ ruleLE ruleLE_trans ruleLE_total (a :: l)
    rw [h₁] at hsorted
    have hl₂ : ∀ c ∈ l₂, ruleLE a c = true := by
      have := (List.pairwise_append.mp hsorted).2.1
      exact (List.pairwise_cons.mp this).1
    have hl₁ : ∀ b ∈ l₁, ruleLE a b = false := by
      intro b hb
      have := h₃ b hb
      simpa using this
    calc (a :: l).mergeSort ruleLE = l₁ ++ a :: l₂ := h₁
      _ = orderedInsertRule a (l₁ ++ l₂) := (orderedInsertRule_append a l₁ l₂ hl₁ hl₂).symm
      _ = orderedInsertRule a (l.mergeSort ruleLE) := by rw [h₂]
      _ = insertionSortRules (a :: l) := by rw [ih]; rfl

theorem firstMatch_eq_find (context : RoutingContext)
    (l : List RuleWithDestination) :
    firstMatch context l =
      match l.find? (fun rule => evaluateCondition rule.toRoutingRule context) with
      | some rule => rule.destination
      | none => none := by
  induction l with
  | nil => rfl
  | cons a l ih =>
    by_cases h : evaluateCondition a.toRoutingRule context = true
    · simp [firstMatch, List.find?_cons, h]
    · simp only [Bool.not_eq_true] at h
      simp [firstMatch, List.find?_cons, h, ih]

/-- C1: for every rule list and context, `findMatchingDestination` equals
the spec's reference algorithm: among active rules sorted ascending by
priority with a stable sort, the destination of the first rule whose
condition evaluates true, else `null`. -/
theorem C1_findMatchingDestination_eq_reference
    (rules : List RuleWithDestination) (context : RoutingContext) :
    findMatchingDestination rules context = findMatchingDestinationSpec rules context := by
  unfold findMatchingDestination findMatchingDestinationSpec
  rw [mergeSort_eq_insertionSortRules, firstMatch_eq_find]

/-- C2: `evaluateCondition` is total — it always yields a boolean — and
any rule whose `conditionType` is not one of the eight recognized types
evaluates to `false` on every context. -/
theorem C2_evaluateCondition_total_and_unknown_false
    (rule : RoutingRule) (context : RoutingContext) :
    (evaluateCondition rule context = true ∨ evaluateCondition rule context = false) ∧
    (rule.conditionType ∉ knownConditionTypes → evaluateCondition rule context = false) := by
  constructor
  · exact (Bool.eq_false_or_eq_true _).symm.imp id id |>.symm.imp id id
  · intro h
    simp only [knownConditionTypes, List.mem_cons, List.not_mem_nil, or_false, not_or] at h
    obtain ⟨h₁, h₂, h₃, h₄, h₅, h₆, h₇, h₈⟩ := h
    simp [evaluateCondition, h₁, h₂, h₃, h₄, h₅, h₆, h₇, h₈]

/-- Witness for C2 at a concrete unrecognized condition type. -/
theorem C2_witness :
    str "loyalty_tier" ∉ knownConditionTypes ∧
    evaluateCondition
      ⟨str "r1", str "shop", str "n", 1, true, str "loyalty_tier", str "gold", str "d"⟩
      ⟨100, some (str "defective"), some [str "vip"],
        [⟨some (str "Electronics"), some [str "sale"], some (str "Acme"),
          some (str "SKU-1")⟩]⟩ = false := by
  refine ⟨by decide, ?_⟩
  exact (C2_evaluateCondition_total_and_unknown_false _ _).2 (by decide)

/-- C9: the result of `evaluateCondition` depends only on the rule's
`conditionType` and `conditionValue` (and the context): two rules agreeing
on those two fields evaluate identically on every context, whatever their
`id`, `name`, `priority`, `isActive` or `destinationId`. -/
theorem C9_evaluateCondition_depends_only_on_condition
    (r r' : RoutingRule) (context : RoutingContext)
    (hty : r.conditionType = r'.conditionType)
    (hval : r.conditionValue = r'.conditionValue) :
    evaluateCondition r context = evaluateCondition r' context := by
  unfold evaluateCondition
  rw [hty, hval]

/-- Witness for C9: an inactive rule with different id, name, priority and
destination evaluates exactly like its active twin — and the condition of
the inactive rule still evaluates to `true`. -/
theorem C9_witness :
    evaluateCondition
      ⟨str "r1", str "shop", str "first", 1, true, str "product_type", str "Shoes", str "d1"⟩
      ⟨50, none, none, [⟨some (str "shoes"), none, none, none⟩]⟩ =
    evaluateCondition
      ⟨str "r2", str "shop", str "second", 99, false, str "product_type", str "Shoes", str "d2"⟩
      ⟨50, none, none, [⟨some (str "shoes"), none, none, none⟩]⟩ ∧
    evaluateCondition
      ⟨str "r2", str "shop", str "second", 99, false, str "product_type", str "Shoes", str "d2"⟩
      ⟨50, none, none, [⟨some (str "shoes"), none, none, none⟩]⟩ = true := by
  refine ⟨?_, by decide⟩
  exact C9_evaluateCondition_depends_only_on_condition _ _ _ rfl rfl

theorem strLeads_nil (s : Str) : strLeads s [] = true := by
  cases s <;> rfl

theorem strHas_nil (s : Str) : strHas s [] = true := by
  cases s <;> simp [strHas, strLeads_nil, List.isEmpty]

theorem lowerHasOpt_nil (o : Option Str) : lowerHasOpt o [] = o.isSome := by
  cases o <;> simp [lowerHasOpt, strHas_nil]

/-- C10: a `sku_contains` rule whose `conditionValue` normalizes to the
empty string matches exactly when some item has its `sku` field present
(every sku, the empty one included, contains the empty substring). -/
theorem C10_sku_contains_empty_matches_any_present_sku
    (rule : RoutingRule) (context : RoutingContext)
    (hty : rule.conditionType = str "sku_contains")
    (hv : strTrim (strToLower rule.conditionValue) = []) :
    (evaluateCondition rule context = true ↔
      ∃ item ∈ context.items, item.sku.isSome = true) := by
  unfold evaluateCondition
  rw [hty, hv]
  simp +decide [lowerHasOpt_nil, List.any_eq_true]

/-- Witness for C10: a whitespace-only `sku_contains` value matches an item
whose sku is the empty string. -/
theorem C10_witness :
    evaluateCondition
      ⟨str "r1", str "shop", str "n", 1, true, str "sku_contains", str "   ", str "d"⟩
      ⟨10, none, none, [⟨none, none, none, some (str "")⟩]⟩ = true := by
  exact (C10_sku_contains_empty_matches_any_present_sku _ _ rfl (by decide)).mpr
    ⟨⟨none, none, none, some (str "")⟩, by decide, by decide⟩

/-- C3: `order_value_above` matches iff the condition value parses and the
order value strictly exceeds the threshold; `order_value_below` iff it
parses and the order value is strictly below it; a failed parse never
matches, and the boundary value matches neither type. -/
theorem C3_order_value_strict_thresholds
    (rule : RoutingRule) (context : RoutingContext) :
    (rule.conditionType = str "order_value_above" →
      (evaluateCondition rule context = true ↔
        ∃ t, parseFloat rule.conditionValue = some t ∧ t < context.orderValue)) ∧
    (rule.conditionType = str "order_value_below" →
      (evaluateCondition rule context = true ↔
        ∃ t, parseFloat rule.conditionValue = some t ∧ context.orderValue < t)) ∧
    ((rule.conditionType = str "order_value_above" ∨
        rule.conditionType = str "order_value_below") →
      parseFloat rule.conditionValue = none → evaluateCondition rule context = false) ∧
    (∀ t, (rule.conditionType = str "order_value_above" ∨
        rule.conditionType = str "order_value_below") →
      parseFloat rule.conditionValue = some t → context.orderValue = t →
      evaluateCondition rule context = false) := by
  refine ⟨?_, ?_, ?_, ?_⟩
  · intro hty
    unfold evaluateCondition
    rw [hty]
    cases hp : parseFloat rule.conditionValue <;> simp +decide [hp]
  · intro hty
    unfold evaluateCondition
    rw [hty]
    cases hp : parseFloat rule.conditionValue <;> simp +decide [hp]
  · rintro (hty | hty) hp <;> (unfold evaluateCondition; rw [hty]; simp +decide [hp])
  · rintro t (hty | hty) hp hb <;>
      (unfold evaluateCondition; rw [hty]; simp +decide [hp, hb])

/-- Witness for C3: with threshold `"100"`, an order value of exactly 100
matches neither type, while 100.01 matches `order_value_above`; a
non-numeric threshold never matches. -/
theorem C3_witness :
    evaluateCondition
      ⟨str "r1", str "shop", str "n", 1, true, str "order_value_above", str "100", str "d"⟩
      ⟨100, none, none, []⟩ = false ∧
    evaluateCondition
      ⟨str "r1", str "shop", str "n", 1, true, str "order_value_below", str "100", str "d"⟩
      ⟨100, none, none, []⟩ = false ∧
    evaluateCondition
      ⟨str "r1", str "shop", str "n", 1, true, str "order_value_above", str "100", str "d"⟩
      ⟨10001/100, none, none, []⟩ = true ∧
    evaluateCondition
      ⟨str "r1", str "shop", str "n", 1, true, str "order_value_above", str "not-a-number", str "d"⟩
      ⟨10 ^ 9, none, none, []⟩ = false := by
  have hp : parseFloat (str "100") = some 100 := by
    simp +decide [parseFloat, str, digitsVal]
  have hn : parseFloat (str "not-a-number") = none := by
    simp +decide [parseFloat, str]
  refine ⟨?_, ?_, ?_, ?_⟩
  · exact (C3_order_value_strict_thresholds _ _).2.2.2 100 (Or.inl rfl) hp rfl
  · exact (C3_order_value_strict_thresholds _ _).2.2.2 100 (Or.inr rfl) hp rfl
  · exact ((C3_order_value_strict_thresholds _ _).1 rfl).mpr ⟨100, hp, by norm_num⟩
  · exact (C3_order_value_strict_thresholds _ _).2.2.1 (Or.inl rfl) hn

/-- C5: a `customer_tag` rule evaluates to `false` (not an error) when
`customerTags` is unset; when it is set, it matches iff some tag,
lower-cased, equals the normalized condition value — so unset and empty
tag lists alike are non-matches — and the context builder propagates
absent customer data as `none`, never as an empty collection. -/
theorem C5_customer_tag_unset_and_set
    (rule : RoutingRule) (context : RoutingContext)
    (hty : rule.conditionType = str "customer_tag") :
    (context.customerTags = none → evaluateCondition rule context = false) ∧
    (∀ tags, context.customerTags = some tags →
      (evaluateCondition rule context = true ↔
        ∃ tag ∈ tags, strToLower tag = strTrim (strToLower rule.conditionValue))) ∧
    (∀ orderData returnData,
      (buildRoutingContext orderData returnData none).customerTags = none) := by
  refine ⟨?_, ?_, ?_⟩
  · intro h
    unfold evaluateCondition
    rw [hty]
    simp +decide [someTagEqOpt, h]
  · intro tags h
    unfold evaluateCondition
    rw [hty]
    simp +decide [someTagEqOpt, h, List.any_eq_true]
  · intro orderData returnData
    simp [buildRoutingContext]

/-- Witness for C5: unset tags and the empty tag list do not match, a
lower-case-equal tag does. -/
theorem C5_witness :
    evaluateCondition
      ⟨str "r1", str "shop", str "n", 1, true, str "customer_tag", str " VIP ", str "d"⟩
      ⟨10, none, none, []⟩ = false ∧
    evaluateCondition
      ⟨str "r1", str "shop", str "n", 1, true, str "customer_tag", str " VIP ", str "d"⟩
      ⟨10, none, some [], []⟩ = false ∧
    evaluateCondition
      ⟨str "r1", str "shop", str "n", 1, true, str "customer_tag", str " VIP ", str "d"⟩
      ⟨10, none, some [str "Vip"], []⟩ = true := by
  refine ⟨?_, ?_, ?_⟩
  · exact (C5_customer_tag_unset_and_set _ _ rfl).1 rfl
  · have h := (C5_customer_tag_unset_and_set
      ⟨str "r1", str "shop", str "n", 1, true, str "customer_tag", str " VIP ", str "d"⟩
      ⟨10, none, some [], []⟩ rfl).2.1 [] rfl
    rw [Bool.eq_false_iff]
    intro ht
    obtain ⟨tag, htag, -⟩ := h.mp ht
    exact absurd htag (List.not_mem_nil tag)
  · exact ((C5_customer_tag_unset_and_set _ _ rfl).2.1 [str "Vip"] rfl).mpr
      ⟨str "Vip", by decide, by decide⟩

/-- C8: `findMatchingDestination` performs no existence check on the
matched rule's destination: whenever some rule is the first match among the
sorted active rules, its `destination` field is returned verbatim — a
dangling (`none`) destination is propagated to the caller instead of the
rule being skipped in favour of later matching rules. -/
theorem C8_first_match_destination_verbatim
    (rules : List RuleWithDestination) (context : RoutingContext)
    (rule : RuleWithDestination)
    (h : ((rules.filter (fun r => r.isActive)).mergeSort ruleLE).find?
        (fun r => evaluateCondition r.toRoutingRule context) = some rule) :
    findMatchingDestination rules context = rule.destination := by
  unfold findMatchingDestination
  rw [firstMatch_eq_find, h]

/-- Witness for C8: the first matching rule (priority 1) has a dangling
destination, a later matching rule (priority 2) has a real one; the
selector returns `none` rather than the later rule's destination. -/
theorem C8_witness :
    findMatchingDestination
      [⟨⟨str "r1", str "shop", str "broken", 1, true, str "return_reason", str "defective", str "dGone"⟩, none⟩,
       ⟨⟨str "r2", str "shop", str "ok", 2, true, str "return_reason", str "defective", str "d2"⟩,
        some ⟨str "d2", str "shop", str "Main", str "1 Way", none, str "C", str "CA", str "90001", str "US", none, true⟩⟩]
      ⟨10, some (str "defective"), none, []⟩ = none := by
  have h := C8_first_match_destination_verbatim
    [⟨⟨str "r1", str "shop", str "broken", 1, true, str "return_reason", str "defective", str "dGone"⟩, none⟩,
     ⟨⟨str "r2", str "shop", str "ok", 2, true, str "return_reason", str "defective", str "d2"⟩,
      some ⟨str "d2", str "shop", str "Main", str "1 Way", none, str "C", str "CA", str "90001", str "US", none, true⟩⟩]
    ⟨10, some (str "defective"), none, []⟩
    ⟨⟨str "r1", str "shop", str "broken", 1, true, str "return_reason", str "defective", str "dGone"⟩, none⟩
    (by rw [mergeSort_eq_insertionSortRules]; decide)
  exact h

theorem strCaseEq_toLower {s t : Str} (h : strCaseEq s t = true) :
    strToLower s = strToLower t := by
  induction s generalizing t with
  | nil => cases t with
    | nil => rfl
    | cons b t => simp [strCaseEq] at h
  | cons a s ih =>
    cases t with
    | nil => simp [strCaseEq] at h
    | cons b t =>
      simp only [strCaseEq, charCaseEq, Bool.and_eq_true, beq_iff_eq] at h
      have hs := ih h.2
      simp only [strToLower, List.map_cons] at hs ⊢
      rw [h.1, hs]

theorem lowerEqOpt_congr {o o' : Option Str} (nv : Str)
    (h : optCaseEq o o' = true) : lowerEqOpt o nv = lowerEqOpt o' nv := by
  cases o <;> cases o'
  · rfl
  · simp [optCaseEq] at h
  · simp [optCaseEq] at h
  · simp only [optCaseEq] at h
    simp only [lowerEqOpt]
    rw [strCaseEq_toLower h]

theorem lowerHasOpt_congr {o o' : Option Str} (nv : Str)
    (h : optCaseEq o o' = true) : lowerHasOpt o nv = lowerHasOpt o' nv := by
  cases o <;> cases o'
  · rfl
  · simp [optCaseEq] at h
  · simp [optCaseEq] at h
  · simp only [optCaseEq] at h
    simp only [lowerHasOpt]
    rw [strCaseEq_toLower h]

theorem tagsAny_congr {ss ts : List Str} (nv : Str)
    (h : listCaseEq ss ts = true) :
    ss.any (fun tag => strToLower tag == nv) =
      ts.any (fun tag => strToLower tag == nv) := by
  induction ss generalizing ts with
  | nil => cases ts with
    | nil => rfl
    | cons t ts => simp [listCaseEq] at h
  | cons s ss ih =>
    cases ts with
    | nil => simp [listCaseEq] at h
    | cons t ts =>
      simp only [listCaseEq, Bool.and_eq_true] at h
      simp [strCaseEq_toLower h.1, ih h.2]

theorem someTagEqOpt_congr {o o' : Option (List Str)} (nv : Str)
    (h : optListCaseEq o o' = true) : someTagEqOpt o nv = someTagEqOpt o' nv := by
  cases o <;> cases o'
  · rfl
  · simp [optListCaseEq] at h
  · simp [optListCaseEq] at h
  · simp only [optListCaseEq] at h
    simp only [someTagEqOpt]
    exact tagsAny_congr nv h

theorem itemsAny_congr {l l' : List ItemFacet} (f g : ItemFacet → Bool)
    (h : itemsCaseEq l l' = true)
    (hfg : ∀ i j, itemCaseEq i j = true → f i = g j) :
    l.any f = l'.any g := by
  induction l generalizing l' with
  | nil => cases l' with
    | nil => rfl
    | cons j js => simp [itemsCaseEq] at h
  | cons i is ih =>
    cases l' with
    | nil => simp [itemsCaseEq] at h
    | cons j js =>
      simp only [itemsCaseEq, Bool.and_eq_true] at h
      simp [hfg i j h.1, ih h.2]

/-- C4: for the six string-valued condition types, `evaluateCondition` is
invariant under changing the letter case of the rule's `conditionValue`
and of the context's string fields. -/
theorem C4_string_conditions_case_insensitive
    (r r' : RoutingRule) (c c' : RoutingContext)
    (hin : r.conditionType ∈ stringConditionTypes)
    (hty : r'.conditionType = r.conditionType)
    (hv : strCaseEq r.conditionValue r'.conditionValue = true)
    (hc : ctxCaseEq c c' = true) :
    evaluateCondition r c = evaluateCondition r' c' := by
  have hnv : strTrim (strToLower r.conditionValue) =
      strTrim (strToLower r'.conditionValue) := by
    rw [strCaseEq_toLower hv]
  simp only [ctxCaseEq, Bool.and_eq_true, decide_eq_true_eq] at hc
  obtain ⟨⟨⟨hov, hrr⟩, hct⟩, hit⟩ := hc
  simp only [stringConditionTypes, List.mem_cons, List.not_mem_nil, or_false] at hin
  rcases hin with h | h | h | h | h | h <;>
    (unfold evaluateCondition; rw [hty, h]; simp +decide; rw [hnv]) <;>
    [skip; skip; skip; skip;
      exact lowerEqOpt_congr _ hrr; exact someTagEqOpt_congr _ hct] <;>
    apply itemsAny_congr _ _ hit <;> intro i j hij <;>
    simp only [itemCaseEq, Bool.and_eq_true] at hij
  · exact lowerEqOpt_congr _ hij.1.1.1
  · exact someTagEqOpt_congr _ hij.1.1.2
  · exact lowerEqOpt_congr _ hij.1.2
  · exact lowerHasOpt_congr _ hij.2

/-- Witness for C4: a `product_type` rule and its case-variant applied to a
case-variant context agree (and match). -/
theorem C4_witness :
    evaluateCondition
      ⟨str "r1", str "shop", str "n", 1, true, str "product_type", str "ELECTRONICS", str "d"⟩
      ⟨10, none, none, [⟨some (str "Electronics"), none, none, none⟩]⟩ =
    evaluateCondition
      ⟨str "r1", str "shop", str "n", 1, true, str "product_type", str "electronics", str "d"⟩
      ⟨10, none, none, [⟨some (str "eLECTRONICS"), none, none, none⟩]⟩ ∧
    evaluateCondition
      ⟨str "r1", str "shop", str "n", 1, true, str "product_type", str "ELECTRONICS", str "d"⟩
      ⟨10, none, none, [⟨some (str "Electronics"), none, none, none⟩]⟩ = true := by
  refine ⟨?_, by decide⟩
  exact C4_string_conditions_case_insensitive _ _ _ _ (by decide) rfl (by decide) (by decide)

theorem digitChar_toNat {d : Nat} (hd : d < 10) :
    (Char.ofNat (48 + d)).toNat = 48 + d := by
  interval_cases d <;> decide

theorem digitChars_inj : ∀ (ds es : List Nat), (∀ d ∈ ds, d < 10) → (∀ e ∈ es, e < 10) →
    ds.map (fun d => Char.ofNat (48 + d)) = es.map (fun e => Char.ofNat (48 + e)) →
    ds = es := by
  intro ds
  induction ds with
  | nil => intro es _ _ h; cases es <;> simp_all
  | cons d ds ih =>
    intro es hds hes h
    cases es with
    | nil => simp at h
    | cons e es =>
      simp only [List.map_cons, List.cons.injEq] at h
      have hd : d < 10 := hds d (by simp)
      have he : e < 10 := hes e (by simp)
      have : 48 + d = 48 + e := by
        rw [← digitChar_toNat hd, ← digitChar_toNat he, h.1]
      have : d = e := by omega
      subst this
      rw [ih es (fun x hx => hds x (by simp [hx]))
        (fun x hx => hes x (by simp [hx])) h.2]

theorem natToStr_digits_lt (n : Nat) : ∀ d ∈ Nat.digits 10 n, d < 10 :=
  fun _ hd => Nat.digits_lt_base (by norm_num) hd

theorem natToStr_inj {m n : Nat} (h : natToStr m = natToStr n) : m = n := by
  unfold natToStr at h
  by_cases hm : m = 0 <;> by_cases hn : n = 0
  · omega
  · rw [if_pos hm, if_neg hn] at h
    have h' : (Nat.digits 10 n).map (fun d => Char.ofNat (48 + d)) = [0].map (fun d => Char.ofNat (48 + d)) := by
      have := congrArg List.reverse h
      simpa using this.symm
    have := digitChars_inj _ _ (natToStr_digits_lt n) (by simp) h'
    have hofd := Nat.ofDigits_digits 10 n
    rw [this] at hofd
    simp at hofd
    omega
  · rw [if_neg hm, if_pos hn] at h
    have h' : (Nat.digits 10 m).map (fun d => Char.ofNat (48 + d)) = [0].map (fun d => Char.ofNat (48 + d)) := by
      have := congrArg List.reverse h
      simpa using this
    have := digitChars_inj _ _ (natToStr_digits_lt m) (by simp) h'
    have hofd := Nat.ofDigits_digits 10 m
    rw [this] at hofd
    simp at hofd
    omega
  · rw [if_neg hm, if_neg hn] at h
    have h' := congrArg List.reverse h
    simp only [List.reverse_reverse] at h'
    have := digitChars_inj _ _ (natToStr_digits_lt m) (natToStr_digits_lt n) h'
    have hm' := Nat.ofDigits_digits 10 m
    have hn' := Nat.ofDigits_digits 10 n
    rw [this] at hm'
    omega

theorem natToStr_chars (n : Nat) : ∀ c ∈ natToStr n, 48 ≤ c.toNat := by
  intro c hc
  unfold natToStr at hc
  by_cases hn : n = 0
  · rw [if_pos hn] at hc
    simp at hc
    subst hc
    decide
  · rw [if_neg hn] at hc
    simp only [List.mem_reverse, List.mem_map] at hc
    obtain ⟨d, hd, rfl⟩ := hc
    have : d < 10 := natToStr_digits_lt n d hd
    rw [digitChar_toNat this]
    omega

theorem intToStr_inj {p q : Int} (h : intToStr p = intToStr q) : p = q := by
  unfold intToStr at h
  by_cases hp : p < 0 <;> by_cases hq : q < 0
  · rw [if_pos hp, if_pos hq] at h
    simp only [List.cons.injEq, true_and] at h
    have := natToStr_inj h
    omega
  · rw [if_pos hp, if_neg hq] at h
    have : '-' ∈ natToStr q.toNat := by rw [← h]; simp
    have := natToStr_chars q.toNat '-' this
    simp at this
  · rw [if_neg hp, if_pos hq] at h
    have : '-' ∈ natToStr p.toNat := by rw [h]; simp
    have := natToStr_chars p.toNat '-' this
    simp at this
  · rw [if_neg hp, if_neg hq] at h
    have := natToStr_inj h
    omega

theorem bumpPriority_keys (m : List (Int × Nat)) (p : Int) :
    (bumpPriority m p).map Prod.fst =
      if m.any (fun e => e.1 == p) then m.map Prod.fst
      else m.map Prod.fst ++ [p] := by
  unfold bumpPriority
  split
  · rw [List.map_map]
    apply congrFun
    apply congrArg
    funext e
    simp only [Function.comp_apply]
    split <;> rfl
  · simp

theorem bumpPriority_keys_nodup {m : List (Int × Nat)} (p : Int)
    (h : (m.map Prod.fst).Nodup) : ((bumpPriority m p).map Prod.fst).Nodup := by
  rw [bumpPriority_keys]
  split
  · exact h
  · rename_i hany
    rw [Bool.not_eq_true, List.any_eq_false] at hany
    have hp : p ∉ m.map Prod.fst := by
      simp only [List.mem_map]
      rintro ⟨e, he, rfl⟩
      exact absurd (by simp) (hany e he)
    simp [List.nodup_append, h, hp]

theorem bumpPriority_pos {m : List (Int × Nat)} (p : Int)
    (h : ∀ e ∈ m, 0 < e.2) : ∀ e ∈ bumpPriority m p, 0 < e.2 := by
  intro e he
  unfold bumpPriority at he
  split at he
  · simp only [List.mem_map] at he
    obtain ⟨x, hx, rfl⟩ := he
    have := h x hx
    by_cases hxp : x.1 == p <;> simp [hxp] <;> omega
  · simp only [List.mem_append, List.mem_singleton] at he
    rcases he with he | he
    · exact h e he
    · simp [he]

theorem bumpPriority_lookup (m : List (Int × Nat)) (p q : Int) :
    lookupCount (bumpPriority m p) q =
      lookupCount m q + if q = p then 1 else 0 := by
  unfold bumpPriority
  split
  · rename_i hany
    have hpred : (fun (e : Int × Nat) =>
        (if e.1 == p then (e.1, e.2 + 1) else e).1 == q) = (fun e => e.1 == q) := by
      funext e
      by_cases h : e.1 == p <;> simp [h]
    unfold lookupCount
    rw [List.find?_map]
    have hcomp : ((fun (e : Int × Nat) => e.1 == q) ∘
        (fun e => if e.1 == p then (e.1, e.2 + 1) else e)) = (fun e => e.1 == q) := by
      funext e
      simp only [Function.comp_apply]
      by_cases h : e.1 == p <;> simp [h]
    rw [hcomp]
    cases hf : m.find? (fun e => e.1 == q) with
    | none =>
      simp only [Option.map_none]
      by_cases hqp : q = p
      · subst hqp
        rw [List.any_eq_true] at hany
        obtain ⟨e, he, hep⟩ := hany
        have : (m.find? (fun e => e.1 == q)).isSome := by
          rw [List.find?_isSome]
          exact ⟨e, he, hep⟩
        rw [hf] at this
        simp at this
      · simp [hqp]
    | some e =>
      have heq : (e.1 == q) = true := List.find?_some (p := fun (x : Int × Nat) => x.1 == q) hf
      simp only [beq_iff_eq] at heq
      by_cases hqp : q = p
      · subst hqp
        simp [heq]
      · have hne : e.1 ≠ p := by omega
        simp [hqp, hne]
  · rename_i hany
    rw [Bool.not_eq_true, List.any_eq_false] at hany
    unfold lookupCount
    rw [List.find?_append]
    cases hf : m.find? (fun e => e.1 == q) with
    | none =>
      simp only [Option.none_or]
      by_cases hqp : q = p
      · subst hqp
        simp [List.find?_cons]
      · simp [List.find?_cons, hqp, Ne.symm hqp]
    | some e =>
      have heq2 : (e.1 == q) = true := List.find?_some (p := fun (x : Int × Nat) => x.1 == q) hf
      have hmem : e ∈ m := List.mem_of_find?_eq_some hf
      by_cases hqp : q = p
      · subst hqp
        exact absurd heq2 (by simpa using hany e hmem)
      · simp [hf, hqp]

theorem bumpPriority_mem_keys (m : List (Int × Nat)) (p q : Int) :
    q ∈ (bumpPriority m p).map Prod.fst ↔ q ∈ m.map Prod.fst ∨ q = p := by
  rw [bumpPriority_keys]
  split
  · rename_i hany
    rw [List.any_eq_true] at hany
    obtain ⟨e, he, hep⟩ := hany
    simp only [beq_iff_eq] at hep
    constructor
    · exact Or.inl
    · rintro (h | rfl)
      · exact h
      · exact List.mem_map.mpr ⟨e, he, hep⟩
  · simp

theorem foldl_bump_nodup : ∀ (ps : List Int) (m : List (Int × Nat)),
    (m.map Prod.fst).Nodup → ((ps.foldl bumpPriority m).map Prod.fst).Nodup := by
  intro ps
  induction ps with
  | nil => exact fun m h => h
  | cons p ps ih => exact fun m h => ih _ (bumpPriority_keys_nodup p h)

theorem foldl_bump_pos : ∀ (ps : List Int) (m : List (Int × Nat)),
    (∀ e ∈ m, 0 < e.2) → ∀ e ∈ ps.foldl bumpPriority m, 0 < e.2 := by
  intro ps
  induction ps with
  | nil => exact fun m h => h
  | cons p ps ih => exact fun m h => ih _ (bumpPriority_pos p h)

theorem foldl_bump_lookup : ∀ (ps : List Int) (m : List (Int × Nat)) (q : Int),
    lookupCount (ps.foldl bumpPriority m) q = lookupCount m q + ps.count q := by
  intro ps
  induction ps with
  | nil => simp
  | cons p ps ih =>
    intro m q
    simp only [List.foldl_cons, List.count_cons]
    rw [ih, bumpPriority_lookup]
    by_cases h : q = p
    · subst h
      simp only [if_pos rfl, beq_self_eq_true, if_true]
      omega
    · simp [h, Ne.symm h]

theorem foldl_bump_mem_keys : ∀ (ps : List Int) (m : List (Int × Nat)) (q : Int),
    q ∈ ((ps.foldl bumpPriority m).map Prod.fst) ↔ q ∈ m.map Prod.fst ∨ q ∈ ps := by
  intro ps
  induction ps with
  | nil => simp
  | cons p ps ih =>
    intro m q
    simp only [List.foldl_cons, List.mem_cons]
    rw [ih, bumpPriority_mem_keys]
    tauto

theorem mem_eq_lookup : ∀ (m : List (Int × Nat)), (m.map Prod.fst).Nodup →
    ∀ (q : Int) (n : Nat),
    ((q, n) ∈ m ↔ q ∈ m.map Prod.fst ∧ lookupCount m q = n) := by
  intro m
  induction m with
  | nil => simp [lookupCount]
  | cons e m ih =>
    intro hnd q n
    simp only [List.map_cons, List.nodup_cons] at hnd
    by_cases he : e.1 = q
    · have hq : q ∉ m.map Prod.fst := he ▸ hnd.1
      have hlook : lookupCount (e :: m) q = e.2 := by
        unfold lookupCount
        rw [List.find?_cons_of_pos _ (by simp [he])]
      rw [hlook]
      simp only [List.mem_cons]
      constructor
      · rintro (h | h)
        · rw [← h]
          simp [he]
        · exfalso
          exact hq (List.mem_map.mpr ⟨(q, n), h, rfl⟩)
      · rintro ⟨-, rfl⟩
        left
        have : e = (e.1, e.2) := rfl
        rw [this, he]
    · have hlook : lookupCount (e :: m) q = lookupCount m q := by
        unfold lookupCount
        rw [List.find?_cons_of_neg _ (by simp [he])]
      rw [hlook]
      simp only [List.mem_cons]
      rw [ih hnd.2 q n]
      constructor
      · rintro (h | h)
        · exfalso
          apply he
          rw [← h]
        · exact ⟨by simp [h.1], h.2⟩
      · rintro ⟨h1, h2⟩
        simp only [List.map_cons, List.mem_cons] at h1
        rcases h1 with h1 | h1
        · exact absurd h1.symm he
        · exact Or.inr ⟨h1, h2⟩

theorem priorityCounts_eq_foldl (rules : List RuleWithDestination) :
    priorityCounts rules =
      ((rules.filter (fun r => r.isActive)).map (fun r => r.priority)).foldl
        bumpPriority [] := by
  unfold priorityCounts
  rw [List.foldl_map]

theorem priorityCounts_mem (rules : List RuleWithDestination) (p : Int) (n : Nat) :
    ((p, n) ∈ priorityCounts rules ↔ n = activePriorityCount rules p ∧ 0 < n) := by
  rw [priorityCounts_eq_foldl]
  have hnd := foldl_bump_nodup
    ((rules.filter (fun r => r.isActive)).map (fun r => r.priority)) [] (by simp)
  rw [mem_eq_lookup _ hnd p n, foldl_bump_mem_keys, foldl_bump_lookup]
  have hcount : ((rules.filter (fun r => r.isActive)).map (fun r => r.priority)).count p
      = activePriorityCount rules p := by
    unfold activePriorityCount
    rw [List.count_eq_countP, List.countP_map]
    apply congrFun
    apply congrArg
    funext r
    simp [Function.comp, eq_comm]
  rw [hcount]
  simp only [lookupCount, List.find?_nil, List.map_nil, List.not_mem_nil, false_or,
    Nat.zero_add]
  constructor
  · rintro ⟨hmem, rfl⟩
    refine ⟨rfl, ?_⟩
    rw [← hcount]
    exact List.count_pos_iff_mem.mpr hmem
  · rintro ⟨rfl, hpos⟩
    refine ⟨?_, rfl⟩
    rw [← hcount] at hpos
    exact List.count_pos_iff_mem.mp hpos

theorem noDestinationsMsg_head : noDestinationsMsg.head? = some 'N' := rfl

theorem noDefaultMsg_head : noDefaultMsg.head? = some 'N' := rfl

theorem danglingMsg_head (name : Str) : (danglingMsg name).head? = some 'R' := rfl

theorem invalidNumericMsg_head (name value : Str) :
    (invalidNumericMsg name value).head? = some 'R' := rfl

theorem duplicatePriorityMsg_head (p : Int) :
    (duplicatePriorityMsg p).head? = some 'M' := rfl

theorem duplicatePriorityMsg_inj {p q : Int}
    (h : duplicatePriorityMsg p = duplicatePriorityMsg q) : p = q := by
  unfold duplicatePriorityMsg at h
  exact intToStr_inj (List.append_cancel_left (List.append_cancel_right h))

theorem ruleIssues_head {rule : RuleWithDestination} {s : Str}
    (h : s ∈ ruleIssues rule) : s.head? = some 'R' := by
  unfold ruleIssues at h
  rw [List.mem_append] at h
  rcases h with h | h
  · cases hd : rule.destination with
    | none =>
      rw [hd] at h
      simp only [List.mem_singleton] at h
      subst h
      exact danglingMsg_head _
    | some d =>
      rw [hd] at h
      simp at h
  · split at h
    · cases hp : parseFloat rule.conditionValue with
      | none =>
        rw [hp] at h
        simp only [List.mem_singleton] at h
        subst h
        exact invalidNumericMsg_head _ _
      | some v =>
        rw [hp] at h
        simp at h
    · simp at h

theorem duplicatePriorityIssues_mem (rules : List RuleWithDestination) (p : Int) :
    (duplicatePriorityMsg p ∈ duplicatePriorityIssues rules ↔
      1 < activePriorityCount rules p) := by
  unfold duplicatePriorityIssues
  rw [List.mem_filterMap]
  constructor
  · rintro ⟨e, he, hsome⟩
    split at hsome
    · rename_i hgt
      simp only [Option.some.injEq] at hsome
      have : e.1 = p := duplicatePriorityMsg_inj hsome
      subst this
      have := (priorityCounts_mem rules e.1 e.2).mp (by
        have : e = (e.1, e.2) := rfl
        rw [← this]
        exact he)
      omega
    · simp at hsome
  · intro h
    refine ⟨(p, activePriorityCount rules p),
      (priorityCounts_mem rules p _).mpr ⟨rfl, by omega⟩, ?_⟩
    rw [if_pos (by omega)]

theorem validateRoutingRules_valid_iff
    (rules : List RuleWithDestination) (destinations : List ReturnDestination) :
    ((validateRoutingRules rules destinations).valid = true ↔
      (validateRoutingRules rules destinations).issues = []) := by
  have hv : (validateRoutingRules rules destinations).valid =
      ((validateRoutingRules rules destinations).issues.length == 0) := rfl
  rw [hv]
  simp [List.length_eq_zero]

/-- C6: the validator emits the duplicate-priority issue for priority `p`
iff more than one **active** rule has priority `p` (inactive rules do not
count), and `valid` is true iff the issue list is empty. -/
theorem C6_duplicate_priority_among_active_rules
    (rules : List RuleWithDestination) (destinations : List ReturnDestination)
    (p : Int) :
    (duplicatePriorityMsg p ∈ (validateRoutingRules rules destinations).issues ↔
      1 < (rules.filter (fun r => r.isActive)).countP (fun r => r.priority == p)) ∧
    ((validateRoutingRules rules destinations).valid = true ↔
      (validateRoutingRules rules destinations).issues = []) := by
  refine ⟨?_, validateRoutingRules_valid_iff rules destinations⟩
  show _ ↔ 1 < activePriorityCount rules p
  unfold validateRoutingRules
  simp only [List.mem_append]
  constructor
  · rintro (((h | h) | h) | h)
    · split at h
      · simp only [List.mem_singleton] at h
        have := congrArg List.head? h
        rw [duplicatePriorityMsg_head, noDestinationsMsg_head] at this
        simp at this
      · simp at h
    · split at h
      · simp only [List.mem_singleton] at h
        have := congrArg List.head? h
        rw [duplicatePriorityMsg_head, noDefaultMsg_head] at this
        simp at this
      · simp at h
    · rw [List.mem_flatMap] at h
      obtain ⟨rule, -, hmem⟩ := h
      have := ruleIssues_head hmem
      rw [duplicatePriorityMsg_head] at this
      simp at this
    · exact (duplicatePriorityIssues_mem rules p).mp h
  · intro h
    exact Or.inr ((duplicatePriorityIssues_mem rules p).mpr h)

/-- C7: the validator emits the no-destinations issue exactly when the
destination list is empty, and the no-default issue exactly when
destinations exist but none is flagged default; with an empty destination
list only the former issue appears. -/
theorem C7_destination_configuration_issues
    (rules : List RuleWithDestination) (destinations : List ReturnDestination) :
    (noDestinationsMsg ∈ (validateRoutingRules rules destinations).issues ↔
      destinations = []) ∧
    (noDefaultMsg ∈ (validateRoutingRules rules destinations).issues ↔
      (destinations ≠ [] ∧ ∀ d ∈ destinations, d.isDefault = false)) ∧
    (destinations = [] →
      noDefaultMsg ∉ (validateRoutingRules rules destinations).issues) := by
  have hmem : ∀ s : Str, s ∈ (validateRoutingRules rules destinations).issues ↔
      (s ∈ (if destinations.length == 0 then [noDestinationsMsg] else []) ∨
       s ∈ (if !(destinations.any (fun d => d.isDefault)) && destinations.length > 0
          then [noDefaultMsg] else []) ∨
       s ∈ rules.flatMap ruleIssues ∨
       s ∈ duplicatePriorityIssues rules) := by
    intro s
    unfold validateRoutingRules
    simp only [List.mem_append]
    tauto
  refine ⟨?_, ?_, ?_⟩
  · rw [hmem]
    constructor
    · rintro (h | h | h | h)
      · split at h
        · rename_i hc
          simpa using hc
        · simp at h
      · split at h
        · simp only [List.mem_singleton] at h
          have := congrArg List.head? h
          rw [noDestinationsMsg_head, noDefaultMsg_head] at this
          exact absurd h (by decide)
        · simp at h
      · rw [List.mem_flatMap] at h
        obtain ⟨rule, -, hmem'⟩ := h
        have := ruleIssues_head hmem'
        rw [noDestinationsMsg_head] at this
        simp at this
      · unfold duplicatePriorityIssues at h
        rw [List.mem_filterMap] at h
        obtain ⟨e, -, hsome⟩ := h
        split at hsome
        · simp only [Option.some.injEq] at hsome
          have := congrArg List.head? hsome
          rw [noDestinationsMsg_head, duplicatePriorityMsg_head] at this
          simp at this
        · simp at hsome
    · intro h
      subst h
      left
      simp
  · rw [hmem]
    constructor
    · rintro (h | h | h | h)
      · split at h
        · simp only [List.mem_singleton] at h
          have := congrArg List.head? h
          rw [noDestinationsMsg_head, noDefaultMsg_head] at this
          exact absurd h (by decide)
        · simp at h
      · split at h
        · rename_i hc
          simp only [Bool.and_eq_true, Bool.not_eq_true', List.any_eq_false,
            decide_eq_true_eq] at hc
          constructor
          · intro he
            rw [he] at hc
            simp at hc
          · intro d hd
            simpa using hc.1 d hd
        · simp at h
      · rw [List.mem_flatMap] at h
        obtain ⟨rule, -, hmem'⟩ := h
        have := ruleIssues_head hmem'
        rw [noDefaultMsg_head] at this
        simp at this
      · unfold duplicatePriorityIssues at h
        rw [List.mem_filterMap] at h
        obtain ⟨e, -, hsome⟩ := h
        split at hsome
        · simp only [Option.some.injEq] at hsome
          have := congrArg List.head? hsome
          rw [noDefaultMsg_head, duplicatePriorityMsg_head] at this
          simp at this
        · simp at hsome
    · rintro ⟨hne, hall⟩
      right
      left
      rw [if_pos]
      · simp
      · simp only [Bool.and_eq_true, Bool.not_eq_true', List.any_eq_false,
          decide_eq_true_eq]
        constructor
        · intro d hd
          simp [hall d hd]
        · cases destinations with
          | nil => exact absurd rfl hne
          | cons d ds => simp
  · intro he hmem'
    rw [hmem] at hmem'
    rcases hmem' with h | h | h | h
    · split at h
      · simp only [List.mem_singleton] at h
        have := congrArg List.head? h
        rw [noDestinationsMsg_head, noDefaultMsg_head] at this
        exact absurd h (by decide)
      · simp at h
    · split at h
      · rename_i hc
        subst he
        simp at hc
      · simp at h
    · rw [List.mem_flatMap] at h
      obtain ⟨rule, -, hmem''⟩ := h
      have := ruleIssues_head hmem''
      rw [noDefaultMsg_head] at this
      simp at this
    · unfold duplicatePriorityIssues at h
      rw [List.mem_filterMap] at h
      obtain ⟨e, -, hsome⟩ := h
      split at hsome
      · simp only [Option.some.injEq] at hsome
        have := congrArg List.head? hsome
        rw [noDefaultMsg_head, duplicatePriorityMsg_head] at this
        simp at this
      · simp at hsome

/-- Witness for C6: two active rules sharing priority 3 trigger the
duplicate-priority issue, and an active/inactive pair sharing priority 7
does not. -/
theorem C6_witness :
    duplicatePriorityMsg 3 ∈ (validateRoutingRules
      [⟨⟨str "r1", str "shop", str "a", 3, true, str "return_reason", str "x", str "d"⟩,
        some ⟨str "d", str "shop", str "D", str "1 Way", none, str "C", str "CA", str "1", str "US", none, true⟩⟩,
       ⟨⟨str "r2", str "shop", str "b", 3, true, str "return_reason", str "y", str "d"⟩,
        some ⟨str "d", str "shop", str "D", str "1 Way", none, str "C", str "CA", str "1", str "US", none, true⟩⟩]
      [⟨str "d", str "shop", str "D", str "1 Way", none, str "C", str "CA", str "1", str "US", none, true⟩]).issues ∧
    duplicatePriorityMsg 7 ∉ (validateRoutingRules
      [⟨⟨str "r1", str "shop", str "a", 7, true, str "return_reason", str "x", str "d"⟩,
        some ⟨str "d", str "shop", str "D", str "1 Way", none, str "C", str "CA", str "1", str "US", none, true⟩⟩,
       ⟨⟨str "r2", str "shop", str "b", 7, false, str "return_reason", str "y", str "d"⟩,
        some ⟨str "d", str "shop", str "D", str "1 Way", none, str "C", str "CA", str "1", str "US", none, true⟩⟩]
      [⟨str "d", str "shop", str "D", str "1 Way", none, str "C", str "CA", str "1", str "US", none, true⟩]).issues := by
  constructor
  · exact (C6_duplicate_priority_among_active_rules _ _ 3).1.mpr (by decide)
  · intro hmem
    have := (C6_duplicate_priority_among_active_rules _ _ 7).1.mp hmem
    revert this
    decide

/-- Witness for C7: with zero destinations the no-destinations issue is
present and the no-default issue is not. -/
theorem C7_witness :
    noDestinationsMsg ∈ (validateRoutingRules [] []).issues ∧
    noDefaultMsg ∉ (validateRoutingRules [] []).issues := by
  constructor
  · exact (C7_destination_configuration_issues [] []).1.mpr rfl
  · exact (C7_destination_configuration_issues [] []).2.2 rfl
